import Mathlib

/-!
Verification of the prephix consolidation pipeline (prephix.py together with
its helper module SNPInputReader.py) against its natural-language
specification.

The development shallow-embeds the parts of the program the claims are
about:

* the three line readers of SNPInputReader.py (K28FileReader,
  NucmerFileReader, VCFFileReader), including a faithful deterministic
  rendering of their regular expressions (each regex in the source is a
  sequence of character classes separated by disjoint delimiters, so greedy
  matching with backtracking coincides with maximal munch);
* the consolidation loop of prephix.py (the body of the main loop over
  input files: indel logging, exclusion checking, SNP output, the
  reference-base table, per-strain statistics, the placeholder row, and
  the final sorted serialization of the reference table).

The source is Python 2.  Two Python-2 semantic points are modelled
explicitly and are marked at their definition sites: cross-type comparison
of a string with an integer (CPython 2 orders every number below every
string, so str >= int is always True and str <= int is always False), and
dictionary assignment (replacing the value of an existing key in place,
appending a fresh key).
-/

set_option maxRecDepth 10000

namespace Prephix

/-! ### Character classes used by the regular expressions of SNPInputReader.py -/

/-- Class [0-9] as used in all three line regexes. -/
def isDigitC (c : Char) : Bool := '0' ≤ c && c ≤ '9'

/-- Python regex class backslash-s for an ASCII str pattern:
space, tab, newline, carriage return, form feed, vertical tab. -/
def isSpaceC (c : Char) : Bool :=
  c = ' ' || c = '\t' || c = '\n' || c = '\r' || c = '\x0c' || c = '\x0b'

/-- Class [ATCG] used by the k28 and nucmer line regexes. -/
def isBaseC (c : Char) : Bool := c = 'A' || c = 'T' || c = 'C' || c = 'G'

/-- Class [ATCGN,] used by the vcf line regex for the REF and ALT columns. -/
def isVBaseC (c : Char) : Bool := isBaseC c || c = 'N' || c = ','

/-- Class [^\t] (any character except tab) used by the vcf line regex. -/
def isNonTabC (c : Char) : Bool := c != '\t'

/-- Value of int() on a string of decimal digits. -/
def digitsToNat (ds : List Char) : Nat :=
  ds.foldl (fun a c => a * 10 + (c.toNat - ('0').toNat)) 0

/-! ### Deterministic parsing combinators

Each regex in the source alternates character-class repetitions with
delimiters that are outside the class, so the greedy regex engine behaves
exactly like maximal munch.  pTake1 renders a + repetition, pTakeStar a *
repetition, pLit a literal. -/

/-- Consume one or more characters of class p (regex class+), maximal munch. -/
def pTake1 (p : Char → Bool) (cs : List Char) : Option (List Char × List Char) :=
  match cs.takeWhile p with
  | [] => none
  | t => some (t, cs.dropWhile p)

/-- Consume zero or more characters of class p (regex class*), maximal munch. -/
def pTakeStar (p : Char → Bool) (cs : List Char) : List Char × List Char :=
  (cs.takeWhile p, cs.dropWhile p)

/-- Consume an exact literal prefix. -/
def pLit : List Char → List Char → Option (List Char)
  | [], cs => some cs
  | _ :: _, [] => none
  | l :: ls, c :: cs => if c = l then pLit ls cs else none

/-- Fields of a line: maximal runs of non-whitespace characters (the
Python 2 behavior of line.split() with no argument), used to state the
k28 locus claim about the second field of a line. -/
def splitFields : List Char → List (List Char)
  | [] => []
  | c :: cs =>
    if isSpaceC c then splitFields cs
    else (c :: cs.takeWhile (fun x => !isSpaceC x)) ::
      splitFields (cs.dropWhile (fun x => !isSpaceC x))
termination_by cs => cs.length
decreasing_by
  · simp only [List.length_cons]; omega
  · simp only [List.length_cons]
    have h : ∀ (q : Char → Bool) (l : List Char), (l.dropWhile q).length ≤ l.length := by
      intro q l
      induction l with
      | nil => simp [List.dropWhile]
      | cons a as ih =>
        by_cases hqa : q a
        · simp only [List.dropWhile, hqa]
          exact Nat.le_succ_of_le ih
        · simp [List.dropWhile, hqa]
    exact Nat.lt_succ_of_le (h _ cs)

/-! ### Loci

A locus is either a bare integer position (int(...) of a digit field, plus
a format-specific offset) or, for VCF input in multi-chromosome mode, the
composite string chromosome-position built at SNPInputReader.py line 402. -/

inductive Locus where
  | num (n : Nat)
  | comp (s : String)
deriving DecidableEq, Repr

/-- Python 2 evaluation of the test locus >= bound where bound is an int
(prephix.py line 286).  CPython 2 orders every number below every value of
any other type, so a composite (string) locus always compares greater. -/
def pyGeNat : Locus → Nat → Bool
  | .num n, k => k ≤ n
  | .comp _, _ => true

/-- Python 2 evaluation of the test locus <= bound where bound is an int
(prephix.py line 286).  A composite (string) locus always compares greater
than an int, so the test is always false. -/
def pyLeNat : Locus → Nat → Bool
  | .num n, k => n ≤ k
  | .comp _, _ => false

/-- Python 2 comparison of two locus keys, as used by list.sort() on the
keys of the reference table (prephix.py line 343): ints numerically,
strings lexicographically, and every int below every string. -/
def locusLeB : Locus → Locus → Bool
  | .num a, .num b => a ≤ b
  | .num _, .comp _ => true
  | .comp _, .num _ => false
  | .comp s, .comp t => decide (s ≤ t)

/-- Strict version of the Python 2 locus comparison. -/
def locusLtB : Locus → Locus → Bool
  | .num a, .num b => a < b
  | .num _, .comp _ => true
  | .comp _, .num _ => false
  | .comp s, .comp t => decide (s < t)

def LocusLe (a b : Locus) : Prop := locusLeB a b = true

def LocusLt (a b : Locus) : Prop := locusLtB a b = true

instance : DecidableRel LocusLe := fun a b => by
  unfold LocusLe; infer_instance

instance : DecidableRel LocusLt := fun a b => by
  unfold LocusLt; infer_instance

instance : IsTotal Locus LocusLe := by
  constructor
  intro a b
  cases a <;> cases b <;> simp [LocusLe, locusLeB] <;>
    first
      | exact Nat.le_total _ _
      | exact le_total _ _

instance : IsTrans Locus LocusLe := by
  constructor
  intro a b c hab hbc
  cases a <;> cases b <;> cases c <;> simp_all [LocusLe, locusLeB]
  · omega
  · exact le_trans hab hbc

/-! ### Normalized records

SNPInputReader yields, per data line, the tuple
(line, lineNumber, realLocus, snpBase, refBase, isIndel, isInsert, isDelete). -/

structure SNPRecord where
  rawLine : List Char
  lineNumber : Nat
  locus : Locus
  snpBase : List Char
  refBase : List Char
  isIndel : Bool
  isInsert : Bool
  isDelete : Bool
deriving DecidableEq, Repr

/-- Errors raised by the readers: SNPFileUnrecognizedLineError carrying the
line number and the raw line. -/
inductive ReadError where
  | unrecognizedLine (lineNumber : Nat) (line : List Char)
deriving DecidableEq, Repr

/-! ### Indel classification

The k28 and nucmer readers use the same length rules (SNPInputReader.py
lines 212-230 and 313-331); the vcf reader compares the two allele lengths
directly (lines 417-426).  Each returns (isIndel, isInsert, isDelete). -/

/-- Indel flags computed by K28FileReader and NucmerFileReader. -/
def lenIndelFlags (snpBase refBase : List Char) : Bool × Bool × Bool :=
  if snpBase.length ≠ 1 then
    if snpBase.length = 0 then (true, false, true)
    else (true, true, false)
  else if refBase.length ≠ 1 then
    if refBase.length = 0 then (true, true, false)
    else (true, false, true)
  else (false, false, false)

/-- Indel flags computed by VCFFileReader. -/
def vcfIndelFlags (snpBase refBase : List Char) : Bool × Bool × Bool :=
  if snpBase.length ≠ refBase.length then
    if snpBase.length < refBase.length then (true, false, true)
    else (true, true, false)
  else (false, false, false)

/-! ### The k28 (VAAL AssemblyCaller) body-line parser

Regex at SNPInputReader.py line 147, an anchored match of
caret [0-9]+ ws+ ([0-9]+) ws+ left= [ATCG]* ws+ sample= ([ATCG]*) ws+
ref= ([ATCG]*) ws+ right= [ATCG]* dollar.  The dollar of re.match also
accepts a single trailing newline. -/

structure K28Groups where
  locus : List Char
  sample : List Char
  refb : List Char
deriving DecidableEq, Repr

def litLeft : List Char := ['l', 'e', 'f', 't', '=']
def litSample : List Char := ['s', 'a', 'm', 'p', 'l', 'e', '=']
def litRef : List Char := ['r', 'e', 'f', '=']
def litRight : List Char := ['r', 'i', 'g', 'h', 't', '=']

def k28Parse (cs : List Char) : Option K28Groups :=
  match pTake1 isDigitC cs with
  | none => none
  | some (_, r1) =>
  match pTake1 isSpaceC r1 with
  | none => none
  | some (_, r2) =>
  match pTake1 isDigitC r2 with
  | none => none
  | some (loc, r3) =>
  match pTake1 isSpaceC r3 with
  | none => none
  | some (_, r4) =>
  match pLit litLeft r4 with
  | none => none
  | some r5 =>
  match pTake1 isSpaceC (pTakeStar isBaseC r5).2 with
  | none => none
  | some (_, r7) =>
  match pLit litSample r7 with
  | none => none
  | some r8 =>
  match pTake1 isSpaceC (pTakeStar isBaseC r8).2 with
  | none => none
  | some (_, r10) =>
  match pLit litRef r10 with
  | none => none
  | some r11 =>
  match pTake1 isSpaceC (pTakeStar isBaseC r11).2 with
  | none => none
  | some (_, r13) =>
  match pLit litRight r13 with
  | none => none
  | some r14 =>
  if (pTakeStar isBaseC r14).2 = [] ∨ (pTakeStar isBaseC r14).2 = ['\n'] then
    some ⟨loc, (pTakeStar isBaseC r8).1, (pTakeStar isBaseC r11).1⟩
  else none

/-- Body of the K28FileReader generator loop for one (already
linesep-stripped) line (SNPInputReader.py lines 192-235): comment lines
are skipped, a regex match yields a record with locus = int(group)+1, and
anything else raises SNPFileUnrecognizedLineError. -/
def k28ProcessLine (n : Nat) (line : List Char) : Except ReadError (Option SNPRecord) :=
  match line with
  | '#' :: _ => .ok none
  | _ =>
    match k28Parse line with
    | none => .error (.unrecognizedLine n line)
    | some g =>
      let fl := lenIndelFlags g.sample g.refb
      .ok (some
        { rawLine := line
          lineNumber := n
          locus := .num (digitsToNat g.locus + 1)
          snpBase := g.sample
          refBase := g.refb
          isIndel := fl.1
          isInsert := fl.2.1
          isDelete := fl.2.2 })

/-! ### The nucmer (Aligner) body-line parser

Regex at SNPInputReader.py line 249, anchored at the start (the source
calls re.search but the pattern begins with a caret and MULTILINE is not
set): caret ([0-9]+) tab ([ATCG]*) tab ([ATCG]*) tab [0-9]+, with
arbitrary text allowed afterwards. -/

structure NucGroups where
  locus : List Char
  refb : List Char
  sample : List Char
deriving DecidableEq, Repr

def nucmerParse (cs : List Char) : Option NucGroups :=
  match pTake1 isDigitC cs with
  | none => none
  | some (loc, r1) =>
  match pLit ['\t'] r1 with
  | none => none
  | some r2 =>
  match pLit ['\t'] (pTakeStar isBaseC r2).2 with
  | none => none
  | some r4 =>
  match pLit ['\t'] (pTakeStar isBaseC r4).2 with
  | none => none
  | some r6 =>
  match pTake1 isDigitC r6 with
  | none => none
  | some _ => some ⟨loc, (pTakeStar isBaseC r2).1, (pTakeStar isBaseC r4).1⟩

/-- Body of the NucmerFileReader generator loop for one line
(SNPInputReader.py lines 285-336): a match yields a record with
locus = int(group), anything else raises. -/
def nucmerProcessLine (n : Nat) (line : List Char) : Except ReadError (Option SNPRecord) :=
  match nucmerParse line with
  | none => .error (.unrecognizedLine n line)
  | some g =>
    let fl := lenIndelFlags g.sample g.refb
    .ok (some
      { rawLine := line
        lineNumber := n
        locus := .num (digitsToNat g.locus)
        snpBase := g.sample
        refBase := g.refb
        isIndel := fl.1
        isInsert := fl.2.1
        isDelete := fl.2.2 })

/-! ### The VCF body-line parser

Regex at SNPInputReader.py line 357, an anchored match of
caret ([^t]+) tab ([0-9]+) tab [^t]+ tab ([ATCGN,]+) tab ([ATCGN,]+) tab
[^t]+ tab ([^t]+) tab, where [^t] stands for any non-tab character. -/

structure VCFGroups where
  chrom : List Char
  locus : List Char
  refb : List Char
  sample : List Char
  filt : List Char
deriving DecidableEq, Repr

def vcfParse (cs : List Char) : Option VCFGroups :=
  match pTake1 isNonTabC cs with
  | none => none
  | some (ch, r1) =>
  match pLit ['\t'] r1 with
  | none => none
  | some r2 =>
  match pTake1 isDigitC r2 with
  | none => none
  | some (loc, r3) =>
  match pLit ['\t'] r3 with
  | none => none
  | some r4 =>
  match pTake1 isNonTabC r4 with
  | none => none
  | some (_, r5) =>
  match pLit ['\t'] r5 with
  | none => none
  | some r6 =>
  match pTake1 isVBaseC r6 with
  | none => none
  | some (rf, r7) =>
  match pLit ['\t'] r7 with
  | none => none
  | some r8 =>
  match pTake1 isVBaseC r8 with
  | none => none
  | some (sm, r9) =>
  match pLit ['\t'] r9 with
  | none => none
  | some r10 =>
  match pTake1 isNonTabC r10 with
  | none => none
  | some (_, r11) =>
  match pLit ['\t'] r11 with
  | none => none
  | some r12 =>
  match pTake1 isNonTabC r12 with
  | none => none
  | some (fil, r13) =>
  match pLit ['\t'] r13 with
  | none => none
  | some _ => some ⟨ch, loc, rf, sm, fil⟩

/-- Default of the filterQuality parameter of VCFFileReader
(SNPInputReader.py line 345) and of getSNPFileReader (line 26). -/
def filterQualityDefault : Bool := true

def passChars : List Char := ['P', 'A', 'S', 'S']

/-- Body of the VCFFileReader generator loop for one line
(SNPInputReader.py lines 385-430): a match either continues (quality
filtering on and the filter group differs from PASS) or yields a record
whose locus is the composite chrom-pos string in multi-chromosome mode and
int(pos) otherwise; a non-matching line raises. -/
def vcfProcessLine (filterQuality multiChrom : Bool) (n : Nat) (line : List Char) :
    Except ReadError (Option SNPRecord) :=
  match vcfParse line with
  | none => .error (.unrecognizedLine n line)
  | some g =>
    if filterQuality ∧ g.filt ≠ passChars then .ok none
    else
      let fl := vcfIndelFlags g.sample g.refb
      .ok (some
        { rawLine := line
          lineNumber := n
          locus := if multiChrom then .comp (String.mk (g.chrom ++ '-' :: g.locus))
                   else .num (digitsToNat g.locus)
          snpBase := g.sample
          refBase := g.refb
          isIndel := fl.1
          isInsert := fl.2.1
          isDelete := fl.2.2 })

/-- Record stream of a VCF file body: each body line paired with its file
line number, in order; an unrecognized line aborts the whole stream, a
quality-filtered line is dropped. -/
def vcfRecords (filterQuality multiChrom : Bool) :
    List (Nat × List Char) → Except ReadError (List SNPRecord)
  | [] => .ok []
  | (n, l) :: rest =>
    match vcfProcessLine filterQuality multiChrom n l with
    | .error e => .error e
    | .ok none => vcfRecords filterQuality multiChrom rest
    | .ok (some r) =>
      match vcfRecords filterQuality multiChrom rest with
      | .error e => .error e
      | .ok rs => .ok (r :: rs)

/-! ### Python dictionaries as association lists

Python 2 dict semantics: assignment to an existing key replaces its value
in place (keeping its position in iteration order), assignment to a fresh
key appends it; augmented assignment on a key requires the key to be
present.  prephix only applies dModify to keys it has initialized, so the
absent case of dModify is unreachable in the modelled flows. -/

def dGet? [DecidableEq κ] (k : κ) : List (κ × β) → Option β
  | [] => none
  | (k1, v) :: rest => if k1 = k then some v else dGet? k rest

def dSet [DecidableEq κ] (k : κ) (v : β) : List (κ × β) → List (κ × β)
  | [] => [(k, v)]
  | (k1, v1) :: rest => if k1 = k then (k, v) :: rest else (k1, v1) :: dSet k v rest

def dModify [DecidableEq κ] (k : κ) (f : β → β) : List (κ × β) → List (κ × β)
  | [] => []
  | (k1, v) :: rest => if k1 = k then (k1, f v) :: rest else (k1, v) :: dModify k f rest

/-! ### Consolidator state (prephix.py main loop)

refTable models refDataTable {locus: (base, source filename, line
number)}; snpRows and indelRows model the lines written to the .snp and
.indel output files, in order; statsTable models
{strainID: [snps, insertions, deletions, exclusions]}; excludeDataTable
models {strainID: {exclude_label: count}}. -/

structure StrainStats where
  snps : Nat
  ins : Nat
  dels : Nat
  excl : Nat
deriving DecidableEq, Repr

/-- Row of the .snp output file; locus is the formatted text written by
str.format, so the placeholder row carries the text -1. -/
structure SNPOutRow where
  strain : String
  locus : String
  base : String
deriving DecidableEq, Repr

/-- Row of the .indel output file. -/
structure IndelRow where
  strain : String
  fmt : String
  rawLine : List Char
  kind : String
deriving DecidableEq, Repr

/-- Entry of refDataTable: (base, source file name, line number). -/
abbrev RefEntry : Type := List Char × String × Nat

structure ConsState where
  refTable : List (Locus × RefEntry)
  snpRows : List SNPOutRow
  indelRows : List IndelRow
  statsTable : List (String × StrainStats)
  excludeDataTable : List (String × List (String × Nat))
deriving DecidableEq, Repr

def initialState : ConsState := ⟨[], [], [], [], []⟩

/-- Fatal conditions of the consolidation loop: the unknown-indel guard at
prephix.py line 272 and the reference-base conflict at lines 316-320,
which reports the locus, the incoming source file, line number and base,
and the already-recorded base, source file and line number. -/
inductive ConsError where
  | unknownIndel (lineNumber : Nat) (rawLine : List Char)
  | refConflict (locus : Locus) (newFile : String) (newLine : Nat) (newBase : List Char)
      (oldBase : List Char) (oldFile : String) (oldLine : Nat)
deriving DecidableEq, Repr

/-- Labeled inclusive exclusion range, from a line label,start,end of the
exclusion file (prephix.py lines 186-206; the bounds are int() of digit
groups). -/
structure Exclusion where
  label : String
  startLocus : Nat
  endLocus : Nat
deriving DecidableEq, Repr

/-- Test of prephix.py line 286: locus >= start and locus <= end, under
Python 2 cross-type comparison. -/
def exclMatchesB (e : Exclusion) (locus : Locus) : Bool :=
  pyGeNat locus e.startLocus && pyLeNat locus e.endLocus

/-- Update of excludeDataTable at prephix.py lines 293-298. -/
def bumpLabel (strain label : String) (t : List (String × List (String × Nat))) :
    List (String × List (String × Nat)) :=
  match dGet? strain t with
  | none => dSet strain [(label, 1)] t
  | some inner =>
    match dGet? label inner with
    | none => dSet strain (dSet label 1 inner) t
    | some c => dSet strain (dSet label (c + 1) inner) t

/-- One iteration of the exclusion loop at prephix.py lines 282-298: on a
match, set the excluded flag, increment the strain exclusion counter and
the per-label counter.  The loop has no break statement, so every range is
tested. -/
def exclusionStep (strain : String) (locus : Locus) (acc : Bool × ConsState)
    (e : Exclusion) : Bool × ConsState :=
  if exclMatchesB e locus then
    (true,
      { acc.2 with
        statsTable := dModify strain (fun s => { s with excl := s.excl + 1 }) acc.2.statsTable
        excludeDataTable := bumpLabel strain e.label acc.2.excludeDataTable })
  else acc

/-- Whole exclusion loop over the exclusion table, in iteration order. -/
def exclusionPhase (strain : String) (excl : List Exclusion) (locus : Locus)
    (st : ConsState) : Bool × ConsState :=
  excl.foldl (exclusionStep strain locus) (false, st)

/-- Text written for a locus in the .snp output (str.format of the value). -/
def formatLocus : Locus → String
  | .num n => toString n
  | .comp s => s

/-- SNP row written for a record at prephix.py line 308. -/
def snpRowOf (strain : String) (r : SNPRecord) : SNPOutRow :=
  ⟨strain, formatLocus r.locus, String.mk r.snpBase⟩

/-- Reference-table update at prephix.py lines 315-326: a conflict with a
different recorded base is fatal and reports both sources; an identical
base is a no-op; an absent locus is inserted. -/
def refUpdate (shortFile : String) (r : SNPRecord) (st : ConsState) :
    Except ConsError ConsState :=
  match dGet? r.locus st.refTable with
  | some e =>
    if e.1 ≠ r.refBase then
      .error (.refConflict r.locus shortFile r.lineNumber r.refBase e.1 e.2.1 e.2.2)
    else .ok st
  | none =>
    .ok { st with refTable := dSet r.locus (r.refBase, shortFile, r.lineNumber) st.refTable }

/-- Indel phase at prephix.py lines 258-278: record the indel row and bump
the insertion or deletion counter; an indel with neither flag is fatal. -/
def indelPhase (strain fmt : String) (st : ConsState) (r : SNPRecord) :
    Except ConsError ConsState :=
  if r.isIndel then
    if r.isInsert then
      .ok { st with
        statsTable := dModify strain (fun s => { s with ins := s.ins + 1 }) st.statsTable
        indelRows := st.indelRows ++ [⟨strain, fmt, r.rawLine, "INS"⟩] }
    else if r.isDelete then
      .ok { st with
        statsTable := dModify strain (fun s => { s with dels := s.dels + 1 }) st.statsTable
        indelRows := st.indelRows ++ [⟨strain, fmt, r.rawLine, "DEL"⟩] }
    else .error (.unknownIndel r.lineNumber r.rawLine)
  else .ok st

/-- Body of the record loop at prephix.py lines 245-326 for one record:
indel phase, exclusion loop (which runs for indel records too), then, for
a record neither excluded nor an indel, the SNP row, the SNP counter and
the reference-table update. -/
def processRecord (strain shortFile fmt : String) (excl : List Exclusion)
    (st : ConsState) (r : SNPRecord) : Except ConsError ConsState :=
  match indelPhase strain fmt st r with
  | .error e => .error e
  | .ok st1 =>
    let p := exclusionPhase strain excl r.locus st1
    if p.1 || r.isIndel then .ok p.2
    else
      refUpdate shortFile r
        { p.2 with
          snpRows := p.2.snpRows ++ [snpRowOf strain r]
          statsTable := dModify strain (fun s => { s with snps := s.snps + 1 }) p.2.statsTable }

/-- Accessor for the SNP counter statsTable[strain][0]. -/
def statsSnps (strain : String) (st : ConsState) : Nat :=
  ((dGet? strain st.statsTable).getD ⟨0, 0, 0, 0⟩).snps

/-- Accessor for the exclusion counter statsTable[strain][3]. -/
def statsExcl (strain : String) (st : ConsState) : Nat :=
  ((dGet? strain st.statsTable).getD ⟨0, 0, 0, 0⟩).excl

/-- Accessor for a nested table entry t[strain][label] (0 when absent). -/
def labelCountT (strain label : String) (t : List (String × List (String × Nat))) : Nat :=
  (dGet? label ((dGet? strain t).getD [])).getD 0

/-- Accessor for excludeDataTable[strain][label] (0 when absent). -/
def labelCount (strain label : String) (st : ConsState) : Nat :=
  labelCountT strain label st.excludeDataTable

/-- Processing of one input file (prephix.py lines 243-331): initialize
the stats entry of the strain, run the record loop, and append the
placeholder SNP row with sentinel locus -1 and base - when the strain
contributed zero SNP rows. -/
def processFile (strain shortFile fmt : String) (excl : List Exclusion)
    (st : ConsState) (records : List SNPRecord) : Except ConsError ConsState :=
  match records.foldlM (processRecord strain shortFile fmt excl)
      { st with statsTable := dSet strain ⟨0, 0, 0, 0⟩ st.statsTable } with
  | .error e => .error e
  | .ok st1 =>
    if statsSnps strain st1 = 0 then
      .ok { st1 with snpRows := st1.snpRows ++ [⟨strain, "-1", "-"⟩] }
    else .ok st1

structure FileJob where
  strain : String
  shortFile : String
  fmt : String
  records : List SNPRecord
deriving Repr

/-- Whole-run consolidation over a list of input files.  (prephix.py pops
the file list from its end, so the list here is given in processing
order.) -/
def processFiles (excl : List Exclusion) (files : List FileJob) (st : ConsState) :
    Except ConsError ConsState :=
  files.foldlM (fun s f => processFile f.strain f.shortFile f.fmt excl s f.records) st

/-- Sorted key list of the reference table, as produced by keys();sort()
at prephix.py lines 342-343. -/
def refKeysSorted (st : ConsState) : List Locus :=
  List.insertionSort LocusLe (st.refTable.map Prod.fst)

/-- Serialized .ref output (prephix.py lines 344-345): one (locus, base)
row per table key, in ascending key order. -/
def refSerialize (st : ConsState) : List (Locus × List Char) :=
  (refKeysSorted st).map (fun k => (k, ((dGet? k st.refTable).getD ([], "", 0)).1))

/-! ### Concrete material used by witnesses and counterexamples -/

def wSt : ConsState := ⟨[(.num 5, (['C'], "f1", 2))], [], [], [], []⟩

def wRecSame : SNPRecord := ⟨['x'], 3, .num 5, ['G'], ['C'], false, false, false⟩

def wRecConf : SNPRecord := ⟨['y'], 3, .num 5, ['G'], ['A'], false, false, false⟩

def c2rec : SNPRecord := ⟨['x'], 1, .num 150, ['G'], ['A'], false, false, false⟩

def c2excl : List Exclusion := [⟨"a", 100, 200⟩, ⟨"b", 150, 250⟩]

def c2st : ConsState := ⟨[], [], [], [("s", ⟨0, 0, 0, 0⟩)], []⟩

def c3rec : SNPRecord := ⟨['x'], 1, .num 150, ['G'], ['A'], false, false, false⟩

def c3recT : SNPRecord := ⟨['y'], 2, .num 150, ['T'], ['A'], false, false, false⟩

def c3st : ConsState :=
  ⟨[(.num 150, (['A'], "f", 1))], [⟨"s", "150", "G"⟩], [], [("s", ⟨1, 0, 0, 0⟩)], []⟩

def c4line : List Char := ("chr1\t100\tx\tA\tG\t50\tq10\tinfo").data

def c4groups : VCFGroups :=
  ⟨['c', 'h', 'r', '1'], ['1', '0', '0'], ['A'], ['G'], ['q', '1', '0']⟩

def c5line : List Char := ("chr1\t100\tx\tAGG\tA\t50\tPASS\tinfo").data

def c5rec : SNPRecord := ⟨c5line, 1, .num 100, ['A'], ['A', 'G', 'G'], true, false, true⟩

def c6line : List Char := ("0 10 left=A sample= ref=A right=T").data

def c6rec : SNPRecord := ⟨c6line, 1, .num 11, [], ['A'], true, false, true⟩

def c7line : List Char := ("0 4059 left=ACGT sample=G ref=A right=TTTT").data

def c7rec : SNPRecord := ⟨c7line, 5, .num 4060, ['G'], ['A'], false, false, false⟩

def c9st : ConsState := ⟨[], [⟨"s", "-1", "-"⟩], [], [("s", ⟨0, 0, 0, 0⟩)], []⟩

def c10rec1 : SNPRecord := ⟨['x'], 1, .num 150, ['G'], ['A'], false, false, false⟩

def c10rec2 : SNPRecord := ⟨['y'], 1, .num 7, ['G'], ['T'], false, false, false⟩

def c10files : List FileJob :=
  [⟨"s1", "f1", "vcf", [c10rec1]⟩, ⟨"s2", "f2", "vcf", [c10rec2]⟩]

def c10st : ConsState :=
  ⟨[(.num 150, (['A'], "f1", 1)), (.num 7, (['T'], "f2", 1))],
    [⟨"s1", "150", "G"⟩, ⟨"s2", "7", "G"⟩], [],
    [("s1", ⟨1, 0, 0, 0⟩), ("s2", ⟨1, 0, 0, 0⟩)], []⟩

/-! ### Parsing-combinator soundness -/

theorem pTake1_sound {p : Char → Bool} {cs t r : List Char}
    (h : pTake1 p cs = some (t, r)) :
    cs = t ++ r ∧ t ≠ [] ∧ (∀ c ∈ t, p c = true) := by
  unfold pTake1 at h
  rcases h1 : cs.takeWhile p with _ | ⟨a, as⟩
  · rw [h1] at h; exact absurd h (by simp)
  · rw [h1] at h
    simp only [Option.some.injEq, Prod.mk.injEq] at h
    obtain ⟨ht, hr⟩ := h
    refine ⟨?_, ?_, ?_⟩
    · rw [← ht, ← hr, ← h1, List.takeWhile_append_dropWhile]
    · rw [← ht]; simp
    · intro c hc
      rw [← ht] at hc
      rw [← h1] at hc
      exact List.mem_takeWhile_imp hc

theorem pTakeStar_sound {p : Char → Bool} {cs t r : List Char}
    (h : pTakeStar p cs = (t, r)) :
    cs = t ++ r ∧ (∀ c ∈ t, p c = true) := by
  unfold pTakeStar at h
  simp only [Prod.mk.injEq] at h
  obtain ⟨ht, hr⟩ := h
  constructor
  · rw [← ht, ← hr, List.takeWhile_append_dropWhile]
  · intro c hc; rw [← ht] at hc; exact List.mem_takeWhile_imp hc

theorem pLit_sound : ∀ {lit cs r : List Char}, pLit lit cs = some r → cs = lit ++ r
  | [], cs, r, h => by simpa [pLit] using (by simpa [pLit] using h : cs = r) ▸ rfl
  | l :: ls, [], r, h => by simp [pLit] at h
  | l :: ls, c :: cs, r, h => by
    by_cases hc : c = l
    · simp only [pLit, hc, if_pos rfl] at h
      simpa [hc] using congrArg (List.cons l) (pLit_sound h)
    · simp [pLit, hc] at h

/-! ### Lemmas on whitespace-delimited fields -/

theorem splitFields_ws {w : List Char} (hw : ∀ c ∈ w, isSpaceC c = true) :
    ∀ r : List Char, splitFields (w ++ r) = splitFields r := by
  induction w with
  | nil => intro r; simp
  | cons a as ih =>
    intro r
    have ha : isSpaceC a = true := hw a (by simp)
    have has : ∀ c ∈ as, isSpaceC c = true := fun c hc => hw c (by simp [hc])
    simp only [List.cons_append, splitFields, ha, if_pos]
    exact ih has r

theorem takeWhile_append_of_head {p : Char → Bool} {t : List Char}
    (ht : ∀ c ∈ t, p c = true) :
    ∀ r : List Char, (r = [] ∨ ∃ c cs, r = c :: cs ∧ p c = false) →
      (t ++ r).takeWhile p = t ∧ (t ++ r).dropWhile p = r := by
  induction t with
  | nil =>
    intro r hr
    rcases hr with hr | ⟨c, cs, hr, hc⟩
    · subst hr; simp [List.takeWhile, List.dropWhile]
    · subst hr; simp [List.takeWhile, List.dropWhile, hc]
  | cons a as ih =>
    intro r hr
    have ha : p a = true := ht a (by simp)
    have has : ∀ c ∈ as, p c = true := fun c hc => ht c (by simp [hc])
    obtain ⟨h1, h2⟩ := ih has r hr
    constructor
    · simp [List.takeWhile, ha, h1]
    · simp [List.dropWhile, ha, h2]

theorem splitFields_token {t : List Char} (ht : ∀ c ∈ t, isSpaceC c = false)
    (hne : t ≠ []) :
    ∀ r : List Char, (r = [] ∨ ∃ c cs, r = c :: cs ∧ isSpaceC c = true) →
      splitFields (t ++ r) = t :: splitFields r := by
  rcases t with _ | ⟨a, as⟩
  · exact absurd rfl hne
  · intro r hr
    have ha : isSpaceC a = false := ht a (by simp)
    have has : ∀ c ∈ as, (fun x => !isSpaceC x) c = true := by
      intro c hc; simp [ht c (by simp [hc])]
    have hr' : r = [] ∨ ∃ c cs, r = c :: cs ∧ (fun x => !isSpaceC x) c = false := by
      rcases hr with hr | ⟨c, cs, hrr, hc⟩
      · exact Or.inl hr
      · exact Or.inr ⟨c, cs, hrr, by simp [hc]⟩
    obtain ⟨h1, h2⟩ := takeWhile_append_of_head has r hr'
    simp only [List.cons_append, splitFields, ha, Bool.false_eq_true, if_false]
    rw [h1, h2]

/-! ### The strict locus order -/

theorem locusLt_of_le_of_ne {a b : Locus} (hle : LocusLe a b) (hne : a ≠ b) :
    LocusLt a b := by
  cases a <;> cases b <;> simp_all [LocusLe, LocusLt, locusLeB, locusLtB]
  · omega
  · exact lt_of_le_of_ne hle (fun h => hne (String.toList_inj.mp h))

/-! ### Association-list lemmas -/

theorem dGet?_dSet_self [DecidableEq κ] (k : κ) (v : β) :
    ∀ l : List (κ × β), dGet? k (dSet k v l) = some v := by
  intro l
  induction l with
  | nil => simp [dGet?, dSet]
  | cons p rest ih =>
    obtain ⟨k1, v1⟩ := p
    by_cases h : k1 = k
    · simp [dGet?, dSet, h]
    · simp [dGet?, dSet, h, ih]

theorem dGet?_dSet_ne [DecidableEq κ] {k k1 : κ} (v : β) (h : k1 ≠ k) :
    ∀ l : List (κ × β), dGet? k (dSet k1 v l) = dGet? k l := by
  intro l
  induction l with
  | nil => simp [dGet?, dSet, h]
  | cons p rest ih =>
    obtain ⟨k2, v2⟩ := p
    by_cases h2 : k2 = k1
    · subst h2; simp [dGet?, dSet, h]
    · by_cases h3 : k2 = k
      · simp [dGet?, dSet, h2, h3, Ne.symm h]
      · simp [dGet?, dSet, h2, h3, ih]

theorem dGet?_dModify_self [DecidableEq κ] (k : κ) (f : β → β) :
    ∀ l : List (κ × β), dGet? k (dModify k f l) = (dGet? k l).map f := by
  intro l
  induction l with
  | nil => simp [dGet?, dModify]
  | cons p rest ih =>
    obtain ⟨k1, v1⟩ := p
    by_cases h : k1 = k
    · simp [dGet?, dModify, h]
    · simp [dGet?, dModify, h, ih]

theorem dGet?_dModify_ne [DecidableEq κ] {k k1 : κ} (f : β → β) (h : k1 ≠ k) :
    ∀ l : List (κ × β), dGet? k (dModify k1 f l) = dGet? k l := by
  intro l
  induction l with
  | nil => simp [dGet?, dModify]
  | cons p rest ih =>
    obtain ⟨k2, v2⟩ := p
    by_cases h2 : k2 = k1
    · subst h2; simp [dGet?, dModify, h]
    · by_cases h3 : k2 = k
      · simp [dGet?, dModify, h2, h3, Ne.symm h]
      · simp [dGet?, dModify, h2, h3, ih]

theorem dGet?_isSome_dModify [DecidableEq κ] (k k1 : κ) (f : β → β) (l : List (κ × β)) :
    (dGet? k (dModify k1 f l)).isSome = (dGet? k l).isSome := by
  by_cases h : k1 = k
  · subst h; rw [dGet?_dModify_self]; cases dGet? k1 l <;> simp
  · rw [dGet?_dModify_ne f h]

theorem dGet?_eq_none_iff [DecidableEq κ] (k : κ) :
    ∀ l : List (κ × β), dGet? k l = none ↔ k ∉ l.map Prod.fst := by
  intro l
  induction l with
  | nil => simp [dGet?]
  | cons p rest ih =>
    obtain ⟨k1, v1⟩ := p
    by_cases h : k1 = k
    · simp [dGet?, h]
    · simp [dGet?, h, ih, Ne.symm h]

theorem dSet_of_not_mem [DecidableEq κ] {k : κ} (v : β) :
    ∀ {l : List (κ × β)}, k ∉ l.map Prod.fst → dSet k v l = l ++ [(k, v)] := by
  intro l
  induction l with
  | nil => intro _; simp [dSet]
  | cons p rest ih =>
    obtain ⟨k1, v1⟩ := p
    intro h
    simp only [List.map_cons, List.mem_cons] at h
    push_neg at h
    simp [dSet, Ne.symm h.1, ih h.2]

theorem map_fst_dModify [DecidableEq κ] (k : κ) (f : β → β) :
    ∀ l : List (κ × β), (dModify k f l).map Prod.fst = l.map Prod.fst := by
  intro l
  induction l with
  | nil => simp [dModify]
  | cons p rest ih =>
    obtain ⟨k1, v1⟩ := p
    by_cases h : k1 = k <;> simp [dModify, h, ih]

theorem pairwise_lt_of_sorted_nodup :
    ∀ {l : List Locus}, l.Pairwise LocusLe → l.Nodup → l.Pairwise LocusLt := by
  intro l
  induction l with
  | nil => intro _ _; exact List.Pairwise.nil
  | cons a t ih =>
    intro hs hn
    rw [List.pairwise_cons] at hs ⊢
    rw [List.nodup_cons] at hn
    refine ⟨fun b hb => locusLt_of_le_of_ne (hs.1 b hb) ?_, ih hs.2 hn.2⟩
    intro hab
    exact hn.1 (hab ▸ hb)

/-! ### Stats-table projection lemmas -/

theorem getD_snps_dModify {f : StrainStats → StrainStats} (hf : ∀ v, (f v).snps = v.snps)
    (s k : String) (T : List (String × StrainStats)) :
    ((dGet? s (dModify k f T)).getD ⟨0, 0, 0, 0⟩).snps
      = ((dGet? s T).getD ⟨0, 0, 0, 0⟩).snps := by
  by_cases h : k = s
  · subst h
    rw [dGet?_dModify_self]
    cases dGet? k T with
    | none => simp
    | some v => simp [hf]
  · rw [dGet?_dModify_ne _ h]

theorem getD_snps_dModify_inc (k : String) (T : List (String × StrainStats))
    (hp : (dGet? k T).isSome = true) :
    ((dGet? k (dModify k (fun x => { x with snps := x.snps + 1 }) T)).getD ⟨0, 0, 0, 0⟩).snps
      = ((dGet? k T).getD ⟨0, 0, 0, 0⟩).snps + 1 := by
  rw [dGet?_dModify_self]
  cases h : dGet? k T with
  | none => rw [h] at hp; simp at hp
  | some v => simp

theorem getD_excl_dModify_inc (k : String) (T : List (String × StrainStats))
    (hp : (dGet? k T).isSome = true) :
    ((dGet? k (dModify k (fun x => { x with excl := x.excl + 1 }) T)).getD ⟨0, 0, 0, 0⟩).excl
      = ((dGet? k T).getD ⟨0, 0, 0, 0⟩).excl + 1 := by
  rw [dGet?_dModify_self]
  cases h : dGet? k T with
  | none => rw [h] at hp; simp at hp
  | some v => simp

/-! ### Lemmas on bumpLabel -/

theorem labelCountT_bumpLabel_self (strain l : String) (t : List (String × List (String × Nat))) :
    labelCountT strain l (bumpLabel strain l t) = labelCountT strain l t + 1 := by
  unfold labelCountT bumpLabel
  cases h : dGet? strain t with
  | none => simp [h, dGet?_dSet_self, dGet?]
  | some inner =>
    cases h2 : dGet? l inner with
    | none => simp [h, h2, dGet?_dSet_self]
    | some c => simp [h, h2, dGet?_dSet_self]

theorem labelCountT_bumpLabel_ne (strain : String) {l l2 : String} (hl : l ≠ l2)
    (t : List (String × List (String × Nat))) :
    labelCountT strain l (bumpLabel strain l2 t) = labelCountT strain l t := by
  unfold labelCountT bumpLabel
  cases h : dGet? strain t with
  | none => simp [h, dGet?_dSet_self, dGet?, Ne.symm hl]
  | some inner =>
    cases h2 : dGet? l2 inner with
    | none => simp [h, h2, dGet?_dSet_self, dGet?_dSet_ne _ (Ne.symm hl)]
    | some c => simp [h, h2, dGet?_dSet_self, dGet?_dSet_ne _ (Ne.symm hl)]

/-! ### Lemmas on the exclusion loop -/

theorem exclusionStep_core (strain : String) (locus : Locus) (acc : Bool × ConsState)
    (e : Exclusion) :
    (exclusionStep strain locus acc e).2.refTable = acc.2.refTable ∧
    (exclusionStep strain locus acc e).2.snpRows = acc.2.snpRows ∧
    (exclusionStep strain locus acc e).2.indelRows = acc.2.indelRows ∧
    (∀ s, statsSnps s (exclusionStep strain locus acc e).2 = statsSnps s acc.2) ∧
    (∀ s, (dGet? s (exclusionStep strain locus acc e).2.statsTable).isSome
        = (dGet? s acc.2.statsTable).isSome) := by
  unfold exclusionStep
  by_cases h : exclMatchesB e locus = true
  · rw [if_pos h]
    refine ⟨rfl, rfl, rfl, ?_, ?_⟩
    · intro s
      show ((dGet? s (dModify strain _ acc.2.statsTable)).getD ⟨0, 0, 0, 0⟩).snps
        = statsSnps s acc.2
      exact getD_snps_dModify (f := fun x => { x with excl := x.excl + 1 })
        (fun v => rfl) s strain acc.2.statsTable
    · intro s
      exact dGet?_isSome_dModify s strain _ acc.2.statsTable
  · rw [if_neg h]
    exact ⟨rfl, rfl, rfl, fun _ => rfl, fun _ => rfl⟩

theorem exclusionFold_core (strain : String) (locus : Locus) :
    ∀ (excl : List Exclusion) (acc : Bool × ConsState),
      ((excl.foldl (exclusionStep strain locus) acc).2.refTable = acc.2.refTable) ∧
      ((excl.foldl (exclusionStep strain locus) acc).2.snpRows = acc.2.snpRows) ∧
      ((excl.foldl (exclusionStep strain locus) acc).2.indelRows = acc.2.indelRows) ∧
      (∀ s, statsSnps s (excl.foldl (exclusionStep strain locus) acc).2 = statsSnps s acc.2) ∧
      (∀ s, (dGet? s (excl.foldl (exclusionStep strain locus) acc).2.statsTable).isSome
          = (dGet? s acc.2.statsTable).isSome) := by
  intro excl
  induction excl with
  | nil => intro acc; exact ⟨rfl, rfl, rfl, fun _ => rfl, fun _ => rfl⟩
  | cons e rest ih =>
    intro acc
    obtain ⟨s1, s2, s3, s4, s5⟩ := exclusionStep_core strain locus acc e
    obtain ⟨i1, i2, i3, i4, i5⟩ := ih (exclusionStep strain locus acc e)
    simp only [List.foldl_cons]
    exact ⟨i1.trans s1, i2.trans s2, i3.trans s3,
      fun s => (i4 s).trans (s4 s), fun s => (i5 s).trans (s5 s)⟩

theorem exclusionFold_fst (strain : String) (locus : Locus) :
    ∀ (excl : List Exclusion) (acc : Bool × ConsState),
      (excl.foldl (exclusionStep strain locus) acc).1
        = (acc.1 || excl.any (fun e => exclMatchesB e locus)) := by
  intro excl
  induction excl with
  | nil => intro acc; simp
  | cons e rest ih =>
    intro acc
    simp only [List.foldl_cons, List.any_cons]
    rw [ih]
    unfold exclusionStep
    by_cases h : exclMatchesB e locus = true
    · simp [h]
    · simp only [Bool.not_eq_true] at h
      simp [h]

theorem exclusionFold_statsExcl (strain : String) (locus : Locus) :
    ∀ (excl : List Exclusion) (acc : Bool × ConsState),
      (dGet? strain acc.2.statsTable).isSome = true →
      statsExcl strain (excl.foldl (exclusionStep strain locus) acc).2
        = statsExcl strain acc.2
          + (excl.filter (fun e => exclMatchesB e locus)).length := by
  intro excl
  induction excl with
  | nil => intro acc _; simp
  | cons e rest ih =>
    intro acc hp
    have hstep := exclusionStep_core strain locus acc e
    have hp1 : (dGet? strain (exclusionStep strain locus acc e).2.statsTable).isSome = true := by
      rw [hstep.2.2.2.2 strain]; exact hp
    simp only [List.foldl_cons]
    rw [ih (exclusionStep strain locus acc e) hp1]
    by_cases h : exclMatchesB e locus = true
    · have : statsExcl strain (exclusionStep strain locus acc e).2
          = statsExcl strain acc.2 + 1 := by
        unfold exclusionStep
        simp only [h, if_pos]
        unfold statsExcl
        exact getD_excl_dModify_inc strain acc.2.statsTable hp
      rw [this]
      simp [h]
      omega
    · have : exclusionStep strain locus acc e = acc := by
        unfold exclusionStep; simp [h]
      rw [this]
      simp only [Bool.not_eq_true] at h
      simp [h]

theorem exclusionFold_labelCount_notmem (strain : String) (locus : Locus) :
    ∀ (excl : List Exclusion) (acc : Bool × ConsState) (l : String),
      (∀ e ∈ excl, e.label ≠ l) →
      labelCount strain l (excl.foldl (exclusionStep strain locus) acc).2
        = labelCount strain l acc.2 := by
  intro excl
  induction excl with
  | nil => intro acc l _; rfl
  | cons e rest ih =>
    intro acc l hl
    simp only [List.foldl_cons]
    rw [ih (exclusionStep strain locus acc e) l (fun x hx => hl x (by simp [hx]))]
    unfold exclusionStep
    by_cases h : exclMatchesB e locus = true
    · rw [if_pos h]
      unfold labelCount
      show labelCountT strain l (bumpLabel strain e.label acc.2.excludeDataTable) = _
      exact labelCountT_bumpLabel_ne strain (Ne.symm (hl e (by simp))) acc.2.excludeDataTable
    · rw [if_neg h]

theorem exclusionFold_labelCount (strain : String) (locus : Locus) :
    ∀ (excl : List Exclusion) (acc : Bool × ConsState),
      (excl.map Exclusion.label).Nodup →
      ∀ e ∈ excl, exclMatchesB e locus = true →
        labelCount strain e.label (excl.foldl (exclusionStep strain locus) acc).2
          = labelCount strain e.label acc.2 + 1 := by
  intro excl
  induction excl with
  | nil => intro acc _ e he; simp at he
  | cons e0 rest ih =>
    intro acc hnd e he hm
    simp only [List.map_cons, List.nodup_cons] at hnd
    simp only [List.foldl_cons]
    rcases List.mem_cons.mp he with he0 | hrest
    · subst he0
      have hnot : ∀ x ∈ rest, x.label ≠ e.label := by
        intro x hx hfalse
        exact hnd.1 (hfalse ▸ List.mem_map_of_mem Exclusion.label hx)
      rw [exclusionFold_labelCount_notmem strain locus rest _ e.label hnot]
      unfold exclusionStep
      rw [if_pos hm]
      unfold labelCount
      show labelCountT strain e.label (bumpLabel strain e.label acc.2.excludeDataTable) = _
      exact labelCountT_bumpLabel_self strain e.label acc.2.excludeDataTable
    · have hne : e.label ≠ e0.label := by
        intro hfalse
        exact hnd.1 (hfalse ▸ List.mem_map_of_mem Exclusion.label hrest)
      rw [ih (exclusionStep strain locus acc e0) hnd.2 e hrest hm]
      unfold exclusionStep
      by_cases h0 : exclMatchesB e0 locus = true
      · rw [if_pos h0]
        unfold labelCount
        show labelCountT strain e.label (bumpLabel strain e0.label acc.2.excludeDataTable) + 1 = _
        rw [labelCountT_bumpLabel_ne strain hne acc.2.excludeDataTable]
      · rw [if_neg h0]

/-! ### Lemmas on the indel phase -/

theorem indelPhase_not_indel {strain fmt : String} {st : ConsState} {r : SNPRecord}
    (hni : r.isIndel = false) : indelPhase strain fmt st r = .ok st := by
  unfold indelPhase
  rw [hni]
  rfl

theorem indelPhase_ok_core {strain fmt : String} {st st1 : ConsState} {r : SNPRecord}
    (h : indelPhase strain fmt st r = .ok st1) :
    st1.refTable = st.refTable ∧ st1.snpRows = st.snpRows ∧
    st1.excludeDataTable = st.excludeDataTable ∧
    (∀ s, statsSnps s st1 = statsSnps s st) ∧
    (∀ s, (dGet? s st1.statsTable).isSome = (dGet? s st.statsTable).isSome) := by
  unfold indelPhase at h
  split at h
  · split at h
    · simp only [Except.ok.injEq] at h
      subst h
      refine ⟨rfl, rfl, rfl, fun s => ?_, fun s => ?_⟩
      · show ((dGet? s (dModify strain _ st.statsTable)).getD ⟨0, 0, 0, 0⟩).snps
          = statsSnps s st
        exact getD_snps_dModify (f := fun x => { x with ins := x.ins + 1 })
          (fun v => rfl) s strain st.statsTable
      · exact dGet?_isSome_dModify s strain _ st.statsTable
    · split at h
      · simp only [Except.ok.injEq] at h
        subst h
        refine ⟨rfl, rfl, rfl, fun s => ?_, fun s => ?_⟩
        · show ((dGet? s (dModify strain _ st.statsTable)).getD ⟨0, 0, 0, 0⟩).snps
            = statsSnps s st
          exact getD_snps_dModify (f := fun x => { x with dels := x.dels + 1 })
            (fun v => rfl) s strain st.statsTable
        · exact dGet?_isSome_dModify s strain _ st.statsTable
      · exact absurd h (by simp)
  · simp only [Except.ok.injEq] at h
    subst h
    exact ⟨rfl, rfl, rfl, fun _ => rfl, fun _ => rfl⟩

/-! ### Lemmas on the reference-table update -/

theorem refUpdate_ok_core {shortFile : String} {r : SNPRecord} {st st1 : ConsState}
    (h : refUpdate shortFile r st = .ok st1) :
    st1.snpRows = st.snpRows ∧ st1.indelRows = st.indelRows ∧
    st1.statsTable = st.statsTable ∧ st1.excludeDataTable = st.excludeDataTable := by
  unfold refUpdate at h
  split at h
  · split at h
    · exact absurd h (by simp)
    · simp only [Except.ok.injEq] at h
      subst h
      exact ⟨rfl, rfl, rfl, rfl⟩
  · simp only [Except.ok.injEq] at h
    subst h
    exact ⟨rfl, rfl, rfl, rfl⟩

theorem refUpdate_preserves_entry {shortFile : String} {r : SNPRecord} {st st1 : ConsState}
    {l : Locus} {e : RefEntry}
    (h : refUpdate shortFile r st = .ok st1) (he : dGet? l st.refTable = some e) :
    dGet? l st1.refTable = some e := by
  unfold refUpdate at h
  split at h
  · split at h
    · exact absurd h (by simp)
    · simp only [Except.ok.injEq] at h
      subst h
      exact he
  next hm =>
    simp only [Except.ok.injEq] at h
    subst h
    show dGet? l (dSet r.locus _ st.refTable) = some e
    by_cases hl : l = r.locus
    · subst hl; rw [he] at hm; exact absurd hm (by simp)
    · rw [dGet?_dSet_ne _ (fun hx => hl hx.symm)]
      exact he

theorem refUpdate_nodup_keys {shortFile : String} {r : SNPRecord} {st st1 : ConsState}
    (h : refUpdate shortFile r st = .ok st1)
    (hn : (st.refTable.map Prod.fst).Nodup) :
    (st1.refTable.map Prod.fst).Nodup := by
  unfold refUpdate at h
  split at h
  · split at h
    · exact absurd h (by simp)
    · simp only [Except.ok.injEq] at h
      subst h
      exact hn
  next hm =>
    simp only [Except.ok.injEq] at h
    subst h
    show ((dSet r.locus _ st.refTable).map Prod.fst).Nodup
    have habs : r.locus ∉ st.refTable.map Prod.fst := (dGet?_eq_none_iff _ _).mp hm
    rw [dSet_of_not_mem _ habs]
    rw [List.map_append]
    refine List.Nodup.append hn (by simp) ?_
    intro a ha hb
    simp only [List.map_cons, List.map_nil, List.mem_singleton] at hb
    exact habs (hb ▸ ha)

/-! ### Lemmas on one record of the consolidation loop -/

theorem processRecord_ok_core {strain shortFile fmt : String} {excl : List Exclusion}
    {st st1 : ConsState} {r : SNPRecord}
    (h : processRecord strain shortFile fmt excl st r = .ok st1) :
    (∀ l e, dGet? l st.refTable = some e → dGet? l st1.refTable = some e) ∧
    ((st.refTable.map Prod.fst).Nodup → (st1.refTable.map Prod.fst).Nodup) ∧
    (∀ s, (dGet? s st1.statsTable).isSome = (dGet? s st.statsTable).isSome) ∧
    ((dGet? strain st.statsTable).isSome = true →
      (st1.snpRows = st.snpRows ∧ statsSnps strain st1 = statsSnps strain st) ∨
      (st1.snpRows = st.snpRows ++ [snpRowOf strain r] ∧
        statsSnps strain st1 = statsSnps strain st + 1)) := by
  unfold processRecord at h
  split at h
  · exact absurd h (by simp)
  next sta hip =>
    obtain ⟨a1, a2, a3, a4, a5⟩ := indelPhase_ok_core hip
    obtain ⟨b1, b2, b3, b4, b5⟩ :=
      exclusionFold_core strain r.locus excl (false, sta)
    simp only at h
    split at h
    · simp only [Except.ok.injEq] at h
      subst h
      refine ⟨?_, ?_, ?_, ?_⟩
      · intro l e he
        show dGet? l (exclusionPhase strain excl r.locus sta).2.refTable = some e
        unfold exclusionPhase
        rw [b1, a1]
        exact he
      · intro hn
        show ((exclusionPhase strain excl r.locus sta).2.refTable.map Prod.fst).Nodup
        unfold exclusionPhase
        rw [b1, a1]
        exact hn
      · intro s
        show (dGet? s (exclusionPhase strain excl r.locus sta).2.statsTable).isSome = _
        unfold exclusionPhase
        rw [b5 s, a5 s]
      · intro _
        left
        constructor
        · show (exclusionPhase strain excl r.locus sta).2.snpRows = st.snpRows
          unfold exclusionPhase
          rw [b2, a2]
        · show statsSnps strain (exclusionPhase strain excl r.locus sta).2 = statsSnps strain st
          unfold exclusionPhase
          rw [b4 strain, a4 strain]
    · set p := exclusionPhase strain excl r.locus sta with hp
      set st3 : ConsState :=
        { p.2 with
          snpRows := p.2.snpRows ++ [snpRowOf strain r]
          statsTable := dModify strain (fun s => { s with snps := s.snps + 1 }) p.2.statsTable }
        with hst3
      obtain ⟨c1, c2, c3, c4⟩ := refUpdate_ok_core h
      have hpref : p.2.refTable = st.refTable := by
        rw [hp]; unfold exclusionPhase; rw [b1, a1]
      have hpsnp : p.2.snpRows = st.snpRows := by
        rw [hp]; unfold exclusionPhase; rw [b2, a2]
      have hpsome : ∀ s, (dGet? s p.2.statsTable).isSome = (dGet? s st.statsTable).isSome := by
        intro s; rw [hp]; unfold exclusionPhase; rw [b5 s, a5 s]
      have hpsnps : ∀ s, statsSnps s p.2 = statsSnps s st := by
        intro s; rw [hp]; unfold exclusionPhase; rw [b4 s, a4 s]
      refine ⟨?_, ?_, ?_, ?_⟩
      · intro l e he
        refine refUpdate_preserves_entry h ?_
        show dGet? l st3.refTable = some e
        rw [hst3]
        show dGet? l p.2.refTable = some e
        rw [hpref]
        exact he
      · intro hn
        refine refUpdate_nodup_keys h ?_
        show (st3.refTable.map Prod.fst).Nodup
        rw [hst3]
        show (p.2.refTable.map Prod.fst).Nodup
        rw [hpref]
        exact hn
      · intro s
        rw [c3]
        show (dGet? s (dModify strain _ p.2.statsTable)).isSome = _
        rw [dGet?_isSome_dModify]
        exact hpsome s
      · intro hpres
        right
        constructor
        · rw [c1]
          show p.2.snpRows ++ [snpRowOf strain r] = st.snpRows ++ [snpRowOf strain r]
          rw [hpsnp]
        · unfold statsSnps
          rw [c3]
          show ((dGet? strain (dModify strain _ p.2.statsTable)).getD ⟨0, 0, 0, 0⟩).snps = _
          have hpres2 : (dGet? strain p.2.statsTable).isSome = true := by
            rw [hpsome strain]; exact hpres
          rw [getD_snps_dModify_inc strain p.2.statsTable hpres2]
          have := hpsnps strain
          unfold statsSnps at this
          rw [this]

/-! ### Lemmas on the record loop over one file -/

theorem processList_ok_core {strain shortFile fmt : String} {excl : List Exclusion} :
    ∀ (records : List SNPRecord) (st st1 : ConsState),
      records.foldlM (processRecord strain shortFile fmt excl) st = .ok st1 →
      (∀ l e, dGet? l st.refTable = some e → dGet? l st1.refTable = some e) ∧
      ((st.refTable.map Prod.fst).Nodup → (st1.refTable.map Prod.fst).Nodup) ∧
      (∀ s, (dGet? s st1.statsTable).isSome = (dGet? s st.statsTable).isSome) ∧
      ((dGet? strain st.statsTable).isSome = true →
        ∃ k, st1.snpRows = st.snpRows ++ k ∧
          statsSnps strain st1 = statsSnps strain st + k.length) := by
  intro records
  induction records with
  | nil =>
    intro st st1 h
    simp only [List.foldlM_nil] at h
    have h1 : st = st1 := by
      have : (pure st : Except ConsError ConsState) = .ok st := rfl
      rw [this] at h
      simpa using h
    subst h1
    exact ⟨fun _ _ he => he, fun hn => hn, fun _ => rfl,
      fun _ => ⟨[], by simp, by simp⟩⟩
  | cons r rest ih =>
    intro st st1 h
    rw [List.foldlM_cons] at h
    cases hr : processRecord strain shortFile fmt excl st r with
    | error e =>
      rw [hr] at h
      simp only [Bind.bind, Except.bind] at h
      exact absurd h (by simp)
    | ok stm =>
      rw [hr] at h
      simp only [Bind.bind, Except.bind] at h
      obtain ⟨c1, c2, c3, c4⟩ := processRecord_ok_core hr
      obtain ⟨i1, i2, i3, i4⟩ := ih stm st1 h
      refine ⟨fun l e he => i1 l e (c1 l e he), fun hn => i2 (c2 hn),
        fun s => (i3 s).trans (c3 s), ?_⟩
      intro hpres
      have hpresm : (dGet? strain stm.statsTable).isSome = true := by
        rw [c3 strain]; exact hpres
      obtain ⟨k, hk1, hk2⟩ := i4 hpresm
      rcases c4 hpres with ⟨hr1, hr2⟩ | ⟨hr1, hr2⟩
      · exact ⟨k, by rw [hk1, hr1], by rw [hk2, hr2]⟩
      · refine ⟨snpRowOf strain r :: k, ?_, ?_⟩
        · rw [hk1, hr1]; simp
        · rw [hk2, hr2]; simp; omega

theorem processFile_ok_core {strain shortFile fmt : String} {excl : List Exclusion}
    {st st1 : ConsState} {records : List SNPRecord}
    (h : processFile strain shortFile fmt excl st records = .ok st1) :
    (∀ l e, dGet? l st.refTable = some e → dGet? l st1.refTable = some e) ∧
    ((st.refTable.map Prod.fst).Nodup → (st1.refTable.map Prod.fst).Nodup) := by
  unfold processFile at h
  split at h
  · exact absurd h (by simp)
  next stm hfold =>
    obtain ⟨i1, i2, _, _⟩ := processList_ok_core records _ stm hfold
    have hfr : ∀ l e, dGet? l st.refTable = some e → dGet? l stm.refTable = some e :=
      fun l e he => i1 l e he
    have hfn : (st.refTable.map Prod.fst).Nodup → (stm.refTable.map Prod.fst).Nodup :=
      fun hn => i2 hn
    split at h <;>
      (simp only [Except.ok.injEq] at h; subst h)
    · exact ⟨hfr, hfn⟩
    · exact ⟨hfr, hfn⟩

/-- Placeholder behavior of one file: if after its records the SNP counter
of the strain is zero, the rows the file adds to the .snp output are
exactly the single placeholder row. -/
theorem processFile_zero_snps {strain shortFile fmt : String} {excl : List Exclusion}
    {st st1 : ConsState} {records : List SNPRecord}
    (h : processFile strain shortFile fmt excl st records = .ok st1)
    (hz : statsSnps strain st1 = 0) :
    st1.snpRows = st.snpRows ++ [⟨strain, "-1", "-"⟩] := by
  unfold processFile at h
  split at h
  · exact absurd h (by simp)
  next stm hfold =>
    have hpres0 : (dGet? strain
        (dSet strain (⟨0, 0, 0, 0⟩ : StrainStats) st.statsTable)).isSome = true := by
      rw [dGet?_dSet_self]; rfl
    have hsnps0 : statsSnps strain
        { st with statsTable := dSet strain ⟨0, 0, 0, 0⟩ st.statsTable } = 0 := by
      unfold statsSnps
      show ((dGet? strain (dSet strain _ st.statsTable)).getD ⟨0, 0, 0, 0⟩).snps = 0
      rw [dGet?_dSet_self]
      rfl
    obtain ⟨_, _, _, i4⟩ := processList_ok_core records _ stm hfold
    obtain ⟨k, hk1, hk2⟩ := i4 hpres0
    rw [hsnps0] at hk2
    split at h
    next hifz =>
      simp only [Except.ok.injEq] at h
      subst h
      have hkz : k.length = 0 := by
        rw [hifz] at hk2
        omega
      have hknil : k = [] := List.length_eq_zero.mp hkz
      subst hknil
      show stm.snpRows ++ [⟨strain, "-1", "-"⟩] = st.snpRows ++ [⟨strain, "-1", "-"⟩]
      rw [hk1]
      simp
    next hifz =>
      simp only [Except.ok.injEq] at h
      subst h
      exact absurd hz hifz

/-! ### Whole-run lemmas -/

theorem processFiles_ok_core {excl : List Exclusion} :
    ∀ (files : List FileJob) (st st1 : ConsState),
      processFiles excl files st = .ok st1 →
      (∀ l e, dGet? l st.refTable = some e → dGet? l st1.refTable = some e) ∧
      ((st.refTable.map Prod.fst).Nodup → (st1.refTable.map Prod.fst).Nodup) := by
  intro files
  induction files with
  | nil =>
    intro st st1 h
    unfold processFiles at h
    simp only [List.foldlM_nil] at h
    have h1 : st = st1 := by
      have : (pure st : Except ConsError ConsState) = .ok st := rfl
      rw [this] at h
      simpa using h
    subst h1
    exact ⟨fun _ _ he => he, fun hn => hn⟩
  | cons f rest ih =>
    intro st st1 h
    unfold processFiles at h
    rw [List.foldlM_cons] at h
    cases hf : processFile f.strain f.shortFile f.fmt excl st f.records with
    | error e =>
      rw [hf] at h
      simp only [Bind.bind, Except.bind] at h
      exact absurd h (by simp)
    | ok stm =>
      rw [hf] at h
      simp only [Bind.bind, Except.bind] at h
      obtain ⟨c1, c2⟩ := processFile_ok_core hf
      obtain ⟨i1, i2⟩ := ih stm st1 h
      exact ⟨fun l e he => i1 l e (c1 l e he), fun hn => i2 (c2 hn)⟩

/-! ### Reader-level lemmas -/

theorem not_space_of_digit {c : Char} (h : isDigitC c = true) : isSpaceC c = false := by
  by_contra hs
  simp only [Bool.not_eq_false] at hs
  unfold isSpaceC at hs
  simp only [Bool.or_eq_true, decide_eq_true_eq] at hs
  rcases hs with ⟨⟨⟨⟨h1 | h1⟩ | h1⟩ | h1⟩ | h1⟩ | h1 <;>
    (subst h1; exact absurd h (by decide))

theorem k28Parse_sound {cs : List Char} {g : K28Groups}
    (hp : k28Parse cs = some g) :
    ∃ d1 w1 w2 rest, cs = d1 ++ w1 ++ g.locus ++ w2 ++ rest ∧
      (∀ c ∈ d1, isDigitC c = true) ∧ d1 ≠ [] ∧
      (∀ c ∈ w1, isSpaceC c = true) ∧ w1 ≠ [] ∧
      (∀ c ∈ g.locus, isDigitC c = true) ∧ g.locus ≠ [] ∧
      (∀ c ∈ w2, isSpaceC c = true) ∧ w2 ≠ [] ∧
      ∃ rest2, rest = 'l' :: rest2 := by
  unfold k28Parse at hp
  split at hp
  · exact absurd hp (by simp)
  next d1 r1 h1 =>
    split at hp
    · exact absurd hp (by simp)
    next w1 r2 h2 =>
      split at hp
      · exact absurd hp (by simp)
      next loc r3 h3 =>
        split at hp
        · exact absurd hp (by simp)
        next w2 r4 h4 =>
          split at hp
          · exact absurd hp (by simp)
          next r5 h5 =>
            have hgloc : g.locus = loc := by
              split at hp
              · exact absurd hp (by simp)
              next =>
                split at hp
                · exact absurd hp (by simp)
                next =>
                  split at hp
                  · exact absurd hp (by simp)
                  next =>
                    split at hp
                    · exact absurd hp (by simp)
                    next =>
                      split at hp
                      · exact absurd hp (by simp)
                      next =>
                        split at hp
                        · exact absurd hp (by simp)
                        next =>
                          split at hp
                          · simp only [Option.some.injEq] at hp
                            rw [← hp]
                          · exact absurd hp (by simp)
            obtain ⟨e1, ne1, a1⟩ := pTake1_sound h1
            obtain ⟨e2, ne2, a2⟩ := pTake1_sound h2
            obtain ⟨e3, ne3, a3⟩ := pTake1_sound h3
            obtain ⟨e4, ne4, a4⟩ := pTake1_sound h4
            have e5 := pLit_sound h5
            refine ⟨d1, w1, w2, r4, ?_, a1, ne1, a2, ne2, ?_, ?_, a4, ne4, ?_⟩
            · rw [hgloc, e1, e2, e3, e4]
              simp [List.append_assoc]
            · rw [hgloc]; exact a3
            · rw [hgloc]; exact ne3
            · exact ⟨litLeft.tail ++ r5, by rw [e5]; rfl⟩

theorem k28_second_field {cs : List Char} {g : K28Groups}
    (hp : k28Parse cs = some g) :
    (splitFields cs).get? 1 = some g.locus ∧ (∀ c ∈ g.locus, isDigitC c = true) := by
  obtain ⟨d1, w1, w2, rest, hcs, hd1, hd1ne, hw1, hw1ne, hloc, hlocne, hw2, hw2ne,
    rest2, hrest⟩ := k28Parse_sound hp
  refine ⟨?_, hloc⟩
  rcases w1 with _ | ⟨wc1, wt1⟩
  · exact absurd rfl hw1ne
  rcases w2 with _ | ⟨wc2, wt2⟩
  · exact absurd rfl hw2ne
  have hsplit1 : splitFields cs
      = d1 :: splitFields ((wc1 :: wt1) ++ g.locus ++ (wc2 :: wt2) ++ rest) := by
    rw [hcs]
    have := splitFields_token (t := d1)
      (fun c hc => not_space_of_digit (hd1 c hc)) hd1ne
      ((wc1 :: wt1) ++ g.locus ++ (wc2 :: wt2) ++ rest)
      (Or.inr ⟨wc1, wt1 ++ g.locus ++ (wc2 :: wt2) ++ rest, by simp, hw1 wc1 (by simp)⟩)
    rw [← this]
    simp [List.append_assoc]
  have hsplit2 : splitFields ((wc1 :: wt1) ++ g.locus ++ (wc2 :: wt2) ++ rest)
      = splitFields (g.locus ++ (wc2 :: wt2) ++ rest) := by
    have := splitFields_ws (w := wc1 :: wt1) hw1 (g.locus ++ (wc2 :: wt2) ++ rest)
    rw [← this]
    simp [List.append_assoc]
  have hsplit3 : splitFields (g.locus ++ (wc2 :: wt2) ++ rest)
      = g.locus :: splitFields ((wc2 :: wt2) ++ rest) := by
    have := splitFields_token (t := g.locus)
      (fun c hc => not_space_of_digit (hloc c hc)) hlocne
      ((wc2 :: wt2) ++ rest)
      (Or.inr ⟨wc2, wt2 ++ rest, by simp, hw2 wc2 (by simp)⟩)
    rw [← this]
    simp [List.append_assoc]
  rw [hsplit1, hsplit2, hsplit3]
  rfl

theorem k28ProcessLine_some {n : Nat} {line : List Char} {r : SNPRecord}
    (h : k28ProcessLine n line = .ok (some r)) :
    ∃ g, k28Parse line = some g ∧ r.locus = .num (digitsToNat g.locus + 1) ∧
      r.snpBase = g.sample ∧ r.refBase = g.refb ∧
      (r.isIndel, r.isInsert, r.isDelete) = lenIndelFlags g.sample g.refb := by
  unfold k28ProcessLine at h
  split at h
  · exact absurd h (by simp)
  next =>
    split at h
    · exact absurd h (by simp)
    next g hg =>
      simp only [Except.ok.injEq, Option.some.injEq] at h
      subst h
      exact ⟨g, hg, rfl, rfl, rfl, rfl⟩

theorem nucmerProcessLine_some {n : Nat} {line : List Char} {r : SNPRecord}
    (h : nucmerProcessLine n line = .ok (some r)) :
    ∃ g, nucmerParse line = some g ∧ r.locus = .num (digitsToNat g.locus) ∧
      r.snpBase = g.sample ∧ r.refBase = g.refb ∧
      (r.isIndel, r.isInsert, r.isDelete) = lenIndelFlags g.sample g.refb := by
  unfold nucmerProcessLine at h
  split at h
  · exact absurd h (by simp)
  next g hg =>
    simp only [Except.ok.injEq, Option.some.injEq] at h
    subst h
    exact ⟨g, hg, rfl, rfl, rfl, rfl⟩

theorem vcfProcessLine_some {fq mc : Bool} {n : Nat} {line : List Char} {r : SNPRecord}
    (h : vcfProcessLine fq mc n line = .ok (some r)) :
    ∃ g, vcfParse line = some g ∧
      r.snpBase = g.sample ∧ r.refBase = g.refb ∧
      (r.isIndel, r.isInsert, r.isDelete) = vcfIndelFlags g.sample g.refb := by
  unfold vcfProcessLine at h
  split at h
  · exact absurd h (by simp)
  next g hg =>
    split at h
    · exact absurd h (by simp)
    · simp only [Except.ok.injEq, Option.some.injEq] at h
      subst h
      exact ⟨g, hg, rfl, rfl, rfl⟩

theorem vcfProcessLine_filtered {mc : Bool} {n : Nat} {line : List Char} {g : VCFGroups}
    (hg : vcfParse line = some g) (hf : g.filt ≠ passChars) :
    vcfProcessLine true mc n line = .ok none := by
  unfold vcfProcessLine
  simp only [hg]
  simp [hf]

theorem vcfRecords_skip {mc : Bool} {n : Nat} {line : List Char}
    (hskip : vcfProcessLine true mc n line = .ok none) :
    ∀ xs ys, vcfRecords true mc (xs ++ (n, line) :: ys) = vcfRecords true mc (xs ++ ys) := by
  intro xs
  induction xs with
  | nil =>
    intro ys
    show vcfRecords true mc ((n, line) :: ys) = vcfRecords true mc ys
    simp only [vcfRecords, hskip]
  | cons x xs ih =>
    intro ys
    obtain ⟨m, l⟩ := x
    show vcfRecords true mc ((m, l) :: (xs ++ (n, line) :: ys))
      = vcfRecords true mc ((m, l) :: (xs ++ ys))
    unfold vcfRecords
    rw [ih ys]

/-! ### Further helpers for the claim theorems -/

theorem exclusionFold_no_match (strain : String) (locus : Locus)
    {excl : List Exclusion} (hm : ∀ e ∈ excl, exclMatchesB e locus = false) :
    ∀ acc : Bool × ConsState, excl.foldl (exclusionStep strain locus) acc = acc := by
  induction excl with
  | nil => intro acc; rfl
  | cons e rest ih =>
    intro acc
    simp only [List.foldl_cons]
    have hstep : exclusionStep strain locus acc e = acc := by
      unfold exclusionStep
      rw [if_neg]
      simp [hm e (by simp)]
    rw [hstep]
    exact ih (fun x hx => hm x (by simp [hx])) acc

theorem processRecord_excluded {strain shortFile fmt : String} {excl : List Exclusion}
    {st : ConsState} {r : SNPRecord}
    (hni : r.isIndel = false)
    (hm : excl.any (fun e => exclMatchesB e r.locus) = true) :
    processRecord strain shortFile fmt excl st r
      = .ok (exclusionPhase strain excl r.locus st).2 := by
  unfold processRecord
  rw [indelPhase_not_indel hni]
  have hfst : (exclusionPhase strain excl r.locus st).1 = true := by
    unfold exclusionPhase
    rw [exclusionFold_fst]
    simp [hm]
  simp only [hfst, hni]
  rfl

theorem processRecord_clean {strain shortFile fmt : String} {excl : List Exclusion}
    {st : ConsState} {r : SNPRecord}
    (hni : r.isIndel = false)
    (hm : ∀ e ∈ excl, exclMatchesB e r.locus = false) :
    processRecord strain shortFile fmt excl st r
      = refUpdate shortFile r
          { st with
            snpRows := st.snpRows ++ [snpRowOf strain r]
            statsTable := dModify strain (fun s => { s with snps := s.snps + 1 })
              st.statsTable } := by
  unfold processRecord
  rw [indelPhase_not_indel hni]
  have hph : exclusionPhase strain excl r.locus st = (false, st) :=
    exclusionFold_no_match strain r.locus hm (false, st)
  simp only [hph, hni]
  rfl

theorem vcfIndelFlags_cases (sm rf : List Char) :
    (sm.length < rf.length → vcfIndelFlags sm rf = (true, false, true)) ∧
    (rf.length < sm.length → vcfIndelFlags sm rf = (true, true, false)) ∧
    (sm.length = rf.length → vcfIndelFlags sm rf = (false, false, false)) := by
  unfold vcfIndelFlags
  refine ⟨fun h => ?_, fun h => ?_, fun h => ?_⟩
  · rw [if_pos (by omega), if_pos h]
  · rw [if_pos (by omega), if_neg (by omega)]
  · rw [if_neg (by omega)]

theorem lenIndelFlags_cases (sm rf : List Char) :
    (sm.length = 0 → lenIndelFlags sm rf = (true, false, true)) ∧
    (1 < sm.length → lenIndelFlags sm rf = (true, true, false)) ∧
    (sm.length = 1 → rf.length = 0 → lenIndelFlags sm rf = (true, true, false)) ∧
    (sm.length = 1 → 1 < rf.length → lenIndelFlags sm rf = (true, false, true)) ∧
    (sm.length = 1 → rf.length = 1 → lenIndelFlags sm rf = (false, false, false)) := by
  unfold lenIndelFlags
  refine ⟨fun h => ?_, fun h => ?_, fun h1 h2 => ?_, fun h1 h2 => ?_, fun h1 h2 => ?_⟩
  · rw [if_pos (by omega), if_pos h]
  · rw [if_pos (by omega), if_neg (by omega)]
  · rw [if_neg (by omega), if_pos (by omega), if_pos h2]
  · rw [if_neg (by omega), if_pos (by omega), if_neg (by omega)]
  · rw [if_neg (by omega), if_neg (by omega)]

/-! ### The claims -/

/-- Claim C1: for every locus, the reference table of the consolidator
holds at most one base across the whole merge: the entry is created on
first sighting and never overwritten; a later record at the same locus
with an identical reference base is a no-op, and a later record with a
different reference base fatally halts the run (the whole-run fold yields
an error value), reporting both source files, both line numbers and both
base values. -/
theorem ref_table_single_base_invariant :
    (∀ (shortFile : String) (st : ConsState) (r : SNPRecord),
      dGet? r.locus st.refTable = none →
      refUpdate shortFile r st = .ok { st with
        refTable := st.refTable
          ++ [(r.locus, ((r.refBase, shortFile, r.lineNumber) : RefEntry))] }) ∧
    (∀ (shortFile : String) (st : ConsState) (r : SNPRecord) (e : RefEntry),
      dGet? r.locus st.refTable = some e → e.1 = r.refBase →
      refUpdate shortFile r st = .ok st) ∧
    (∀ (shortFile : String) (st : ConsState) (r : SNPRecord) (e : RefEntry),
      dGet? r.locus st.refTable = some e → e.1 ≠ r.refBase →
      refUpdate shortFile r st =
        .error (.refConflict r.locus shortFile r.lineNumber r.refBase e.1 e.2.1 e.2.2)) ∧
    (∀ (excl : List Exclusion) (files : List FileJob) (st st1 : ConsState)
      (l : Locus) (e : RefEntry),
      processFiles excl files st = .ok st1 →
      dGet? l st.refTable = some e → dGet? l st1.refTable = some e) := by
  refine ⟨?_, ?_, ?_, ?_⟩
  · intro shortFile st r hnone
    unfold refUpdate
    simp only [hnone]
    rw [dSet_of_not_mem _ ((dGet?_eq_none_iff _ _).mp hnone)]
  · intro shortFile st r e hsome heq
    unfold refUpdate
    simp only [hsome]
    rw [if_neg (fun hh => hh heq)]
  · intro shortFile st r e hsome hne
    unfold refUpdate
    simp only [hsome]
    rw [if_pos hne]
  · intro excl files st st1 l e h he
    exact (processFiles_ok_core files st st1 h).1 l e he

theorem ref_table_single_base_invariant_witness :
    dGet? wRecSame.locus wSt.refTable = some (['C'], "f1", 2) ∧
    (['C'] : List Char) = wRecSame.refBase ∧
    refUpdate "f1" wRecSame wSt = .ok wSt ∧
    (['C'] : List Char) ≠ wRecConf.refBase ∧
    refUpdate "f2" wRecConf wSt =
      .error (.refConflict (.num 5) "f2" 3 ['A'] ['C'] "f1" 2) :=
  ⟨by decide, by decide,
    ref_table_single_base_invariant.2.1 "f1" wSt wRecSame (['C'], "f1", 2)
      (by decide) (by decide),
    by decide,
    ref_table_single_base_invariant.2.2.1 "f2" wSt wRecConf (['C'], "f1", 2)
      (by decide) (by decide)⟩

/-- Claim C2, counterexample: the exclusion loop of prephix.py has no
break, so a non-indel record whose locus lies in two overlapping ranges
increments the strain exclusion counter twice (not exactly once) and
bumps the per-label counter of both labels (not only the first match). -/
theorem exclusion_overlap_first_match_counterexample :
    (processFile "s" "f" "vcf" c2excl initialState [c2rec]).map
        (fun st => (statsExcl "s" st, labelCount "s" "a" st, labelCount "s" "b" st))
      = .ok (2, 1, 1) ∧ (2 : Nat) ≠ 1 := by
  exact ⟨by rfl, by decide⟩

/-- Claim C2, amended: for every non-indel record, the exclusion loop
tests every range; the strain exclusion counter is incremented once per
matching range (so k times when k ranges match), the per-label counter of
every matching label is incremented once, and the record still produces no
SNP row. -/
theorem exclusion_overlap_every_match (strain shortFile fmt : String)
    (excl : List Exclusion) (st : ConsState) (r : SNPRecord)
    (hni : r.isIndel = false)
    (hnd : (excl.map Exclusion.label).Nodup)
    (hp : (dGet? strain st.statsTable).isSome = true)
    (hm : excl.any (fun e => exclMatchesB e r.locus) = true) :
    processRecord strain shortFile fmt excl st r
        = .ok (exclusionPhase strain excl r.locus st).2 ∧
    (exclusionPhase strain excl r.locus st).2.snpRows = st.snpRows ∧
    statsExcl strain (exclusionPhase strain excl r.locus st).2
      = statsExcl strain st + (excl.filter (fun e => exclMatchesB e r.locus)).length ∧
    (∀ e ∈ excl, exclMatchesB e r.locus = true →
      labelCount strain e.label (exclusionPhase strain excl r.locus st).2
        = labelCount strain e.label st + 1) := by
  refine ⟨processRecord_excluded hni hm, ?_, ?_, ?_⟩
  · exact (exclusionFold_core strain r.locus excl (false, st)).2.1
  · exact exclusionFold_statsExcl strain r.locus excl (false, st) hp
  · exact exclusionFold_labelCount strain r.locus excl (false, st) hnd

theorem exclusion_overlap_every_match_witness :
    c2rec.isIndel = false ∧
    (c2excl.map Exclusion.label).Nodup ∧
    (dGet? "s" c2st.statsTable).isSome = true ∧
    c2excl.any (fun e => exclMatchesB e c2rec.locus) = true ∧
    statsExcl "s" (exclusionPhase "s" c2excl c2rec.locus c2st).2
      = statsExcl "s" c2st
        + (c2excl.filter (fun e => exclMatchesB e c2rec.locus)).length :=
  ⟨rfl, by decide, by decide, by decide,
    (exclusion_overlap_every_match "s" "f" "vcf" c2excl c2st c2rec rfl
      (by decide) (by decide) (by decide)).2.2.1⟩

/-- Claim C3, counterexample: the SNP output loop of prephix.py performs
no uniqueness check on (strainID, locus): a duplicate with the same base
yields a second identical row (not silently ignored), and a duplicate
with a different base also yields a second row without any error. -/
theorem snp_duplicate_key_counterexample :
    (processFile "s" "f" "vcf" [] initialState [c3rec, c3rec]).map
        (fun st => st.snpRows)
      = .ok [⟨"s", "150", "G"⟩, ⟨"s", "150", "G"⟩] ∧
    (processFile "s" "f" "vcf" [] initialState [c3rec, c3recT]).map
        (fun st => st.snpRows)
      = .ok [⟨"s", "150", "G"⟩, ⟨"s", "150", "T"⟩] := by
  exact ⟨by rfl, by rfl⟩

/-- Claim C3, amended: every non-indel, non-excluded record whose
reference base does not conflict with the reference table unconditionally
appends one SNP row, whether or not a row with the same (strainID, locus)
is already present and whatever base that earlier row carried; no
uniqueness on the compound key is checked or enforced. -/
theorem snp_row_unconditional_append (strain shortFile fmt : String)
    (excl : List Exclusion) (st : ConsState) (r : SNPRecord)
    (hni : r.isIndel = false)
    (hnm : ∀ e ∈ excl, exclMatchesB e r.locus = false)
    (hcompat : dGet? r.locus st.refTable = none ∨
      ∃ e, dGet? r.locus st.refTable = some e ∧ e.1 = r.refBase) :
    ∃ st1, processRecord strain shortFile fmt excl st r = .ok st1 ∧
      st1.snpRows = st.snpRows ++ [snpRowOf strain r] := by
  rw [processRecord_clean hni hnm]
  rcases hcompat with hnone | ⟨e, hsome, heq⟩
  · have hpr : dGet? r.locus
        ({ st with
          snpRows := st.snpRows ++ [snpRowOf strain r]
          statsTable := dModify strain (fun s => { s with snps := s.snps + 1 })
            st.statsTable } : ConsState).refTable = none := hnone
    refine ⟨{ st with
        refTable := dSet r.locus (r.refBase, shortFile, r.lineNumber) st.refTable
        snpRows := st.snpRows ++ [snpRowOf strain r]
        statsTable := dModify strain (fun s => { s with snps := s.snps + 1 })
          st.statsTable }, ?_, rfl⟩
    unfold refUpdate
    simp only [hpr]
  · have hpr : dGet? r.locus
        ({ st with
          snpRows := st.snpRows ++ [snpRowOf strain r]
          statsTable := dModify strain (fun s => { s with snps := s.snps + 1 })
            st.statsTable } : ConsState).refTable = some e := hsome
    refine ⟨{ st with
        snpRows := st.snpRows ++ [snpRowOf strain r]
        statsTable := dModify strain (fun s => { s with snps := s.snps + 1 })
          st.statsTable }, ?_, rfl⟩
    unfold refUpdate
    simp only [hpr]
    rw [if_neg (fun hh => hh heq)]

theorem snp_row_unconditional_append_witness :
    c3rec.isIndel = false ∧
    (∀ e ∈ ([] : List Exclusion), exclMatchesB e c3rec.locus = false) ∧
    (dGet? c3rec.locus c3st.refTable = none ∨
      ∃ e, dGet? c3rec.locus c3st.refTable = some e ∧ e.1 = c3rec.refBase) ∧
    (∃ st1, processRecord "s" "f" "vcf" [] c3st c3rec = .ok st1 ∧
      st1.snpRows = c3st.snpRows ++ [snpRowOf "s" c3rec]) :=
  ⟨rfl, by simp, Or.inr ⟨(['A'], "f", 1), by decide, by decide⟩,
    snp_row_unconditional_append "s" "f" "vcf" [] c3st c3rec rfl (by simp)
      (Or.inr ⟨(['A'], "f", 1), by decide, by decide⟩)⟩

/-- Claim C4: with quality filtering enabled (the default of the VCF
reader), a VCF data line that matches the body regex but whose filter
field is not exactly PASS yields no record, its removal does not change
the record stream of the file, and therefore it contributes to neither
the SNP output nor the indel output of the consolidation. -/
theorem vcf_non_pass_line_skipped (mc : Bool) (n : Nat) (line : List Char)
    (g : VCFGroups) (hg : vcfParse line = some g) (hf : g.filt ≠ passChars) :
    filterQualityDefault = true ∧
    vcfProcessLine filterQualityDefault mc n line = .ok none ∧
    (∀ xs ys, vcfRecords true mc (xs ++ (n, line) :: ys)
      = vcfRecords true mc (xs ++ ys)) ∧
    (∀ (strain shortFile fmt : String) (excl : List Exclusion) (st : ConsState)
      (rs rs2 : List SNPRecord) (xs ys : List (Nat × List Char)),
      vcfRecords true mc (xs ++ (n, line) :: ys) = .ok rs →
      vcfRecords true mc (xs ++ ys) = .ok rs2 →
      processFile strain shortFile fmt excl st rs
        = processFile strain shortFile fmt excl st rs2) := by
  have hskip : vcfProcessLine true mc n line = .ok none :=
    vcfProcessLine_filtered hg hf
  refine ⟨rfl, hskip, vcfRecords_skip hskip, ?_⟩
  intro strain shortFile fmt excl st rs rs2 xs ys h1 h2
  have hre : rs = rs2 := by
    have := (vcfRecords_skip hskip xs ys).symm.trans h1
    rw [h2] at this
    exact (Except.ok.inj this).symm
  rw [hre]

theorem vcf_non_pass_line_skipped_witness :
    vcfParse c4line = some c4groups ∧
    c4groups.filt ≠ passChars ∧
    vcfProcessLine filterQualityDefault false 7 c4line = .ok none :=
  ⟨by rfl, by decide,
    (vcf_non_pass_line_skipped false 7 c4line c4groups (by rfl) (by decide)).2.1⟩

/-- Claim C5: for every record the VCF reader yields (necessarily after
quality filtering), indel classification compares raw allele string
lengths only: sample shorter than reference gives an indel flagged as a
deletion, longer gives an insertion, and equal lengths give a plain
substitution even when the contents differ. -/
theorem vcf_indel_by_raw_length (fq mc : Bool) (n : Nat) (line : List Char)
    (r : SNPRecord) (h : vcfProcessLine fq mc n line = .ok (some r)) :
    (r.snpBase.length < r.refBase.length →
      r.isIndel = true ∧ r.isDelete = true ∧ r.isInsert = false) ∧
    (r.refBase.length < r.snpBase.length →
      r.isIndel = true ∧ r.isInsert = true ∧ r.isDelete = false) ∧
    (r.snpBase.length = r.refBase.length →
      r.isIndel = false ∧ r.isInsert = false ∧ r.isDelete = false) := by
  obtain ⟨g, hg, hs, hr2, hfl⟩ := vcfProcessLine_some h
  obtain ⟨w1, w2, w3⟩ := vcfIndelFlags_cases g.sample g.refb
  rw [hs, hr2]
  refine ⟨fun hlt => ?_, fun hlt => ?_, fun heq => ?_⟩
  · rw [w1 hlt] at hfl
    simp only [Prod.mk.injEq] at hfl
    exact ⟨hfl.1, hfl.2.2, hfl.2.1⟩
  · rw [w2 hlt] at hfl
    simp only [Prod.mk.injEq] at hfl
    exact ⟨hfl.1, hfl.2.1, hfl.2.2⟩
  · rw [w3 heq] at hfl
    simp only [Prod.mk.injEq] at hfl
    exact ⟨hfl.1, hfl.2.1, hfl.2.2⟩

theorem vcf_indel_by_raw_length_witness :
    vcfProcessLine true false 1 c5line = .ok (some c5rec) ∧
    c5rec.snpBase.length < c5rec.refBase.length ∧
    (c5rec.isIndel = true ∧ c5rec.isDelete = true ∧ c5rec.isInsert = false) :=
  ⟨by rfl, by decide,
    (vcf_indel_by_raw_length true false 1 c5line c5rec (by rfl)).1 (by decide)⟩

/-- Claim C6: for every record yielded by the AssemblyCaller (k28) or
Aligner (nucmer) reader, the indel flags satisfy: sample-base length 0
gives a deletion; length greater than 1 gives an insertion; length
exactly 1 with empty reference base gives an insertion; length exactly 1
with reference base longer than 1 gives a deletion; and both lengths
exactly 1 give no indel. -/
theorem k28_nucmer_indel_length_rules (n : Nat) (line : List Char) (r : SNPRecord)
    (h : k28ProcessLine n line = .ok (some r) ∨
      nucmerProcessLine n line = .ok (some r)) :
    (r.snpBase.length = 0 →
      r.isIndel = true ∧ r.isDelete = true ∧ r.isInsert = false) ∧
    (1 < r.snpBase.length →
      r.isIndel = true ∧ r.isInsert = true ∧ r.isDelete = false) ∧
    (r.snpBase.length = 1 → r.refBase.length = 0 →
      r.isIndel = true ∧ r.isInsert = true ∧ r.isDelete = false) ∧
    (r.snpBase.length = 1 → 1 < r.refBase.length →
      r.isIndel = true ∧ r.isDelete = true ∧ r.isInsert = false) ∧
    (r.snpBase.length = 1 → r.refBase.length = 1 → r.isIndel = false) := by
  have hfl : (r.isIndel, r.isInsert, r.isDelete)
      = lenIndelFlags r.snpBase r.refBase := by
    rcases h with h | h
    · obtain ⟨g, _, _, hs, hr2, hfl⟩ := k28ProcessLine_some h
      rw [hs, hr2]
      exact hfl
    · obtain ⟨g, _, _, hs, hr2, hfl⟩ := nucmerProcessLine_some h
      rw [hs, hr2]
      exact hfl
  obtain ⟨w1, w2, w3, w4, w5⟩ := lenIndelFlags_cases r.snpBase r.refBase
  refine ⟨fun h1 => ?_, fun h1 => ?_, fun h1 h2 => ?_, fun h1 h2 => ?_, fun h1 h2 => ?_⟩
  · rw [w1 h1] at hfl
    simp only [Prod.mk.injEq] at hfl
    exact ⟨hfl.1, hfl.2.2, hfl.2.1⟩
  · rw [w2 h1] at hfl
    simp only [Prod.mk.injEq] at hfl
    exact ⟨hfl.1, hfl.2.1, hfl.2.2⟩
  · rw [w3 h1 h2] at hfl
    simp only [Prod.mk.injEq] at hfl
    exact ⟨hfl.1, hfl.2.1, hfl.2.2⟩
  · rw [w4 h1 h2] at hfl
    simp only [Prod.mk.injEq] at hfl
    exact ⟨hfl.1, hfl.2.2, hfl.2.1⟩
  · rw [w5 h1 h2] at hfl
    simp only [Prod.mk.injEq] at hfl
    exact hfl.1

theorem k28_nucmer_indel_length_rules_witness :
    (k28ProcessLine 1 c6line = .ok (some c6rec) ∨
      nucmerProcessLine 1 c6line = .ok (some c6rec)) ∧
    c6rec.snpBase.length = 0 ∧
    (c6rec.isIndel = true ∧ c6rec.isDelete = true ∧ c6rec.isInsert = false) :=
  ⟨Or.inl (by rfl), by decide,
    (k28_nucmer_indel_length_rules 1 c6line c6rec (Or.inl (by rfl))).1 (by decide)⟩

/-- Claim C7: for every valid AssemblyCaller (k28) data line, the locus of
the yielded record equals the integer parsed from the second
whitespace-delimited field of the line plus exactly one. -/
theorem k28_locus_second_field_plus_one (n : Nat) (line : List Char) (r : SNPRecord)
    (h : k28ProcessLine n line = .ok (some r)) :
    ∃ d, (splitFields line).get? 1 = some d ∧ (∀ c ∈ d, isDigitC c = true) ∧
      r.locus = .num (digitsToNat d + 1) := by
  obtain ⟨g, hg, hloc, _, _, _⟩ := k28ProcessLine_some h
  obtain ⟨hsf, hdig⟩ := k28_second_field hg
  exact ⟨g.locus, hsf, hdig, hloc⟩

theorem k28_locus_second_field_plus_one_witness :
    k28ProcessLine 5 c7line = .ok (some c7rec) ∧
    (∃ d, (splitFields c7line).get? 1 = some d ∧ (∀ c ∈ d, isDigitC c = true) ∧
      c7rec.locus = .num (digitsToNat d + 1)) :=
  ⟨by rfl, k28_locus_second_field_plus_one 5 c7line c7rec (by rfl)⟩

/-- Claim C8: a composite chromosome-position locus (multi-chromosome
mode) never matches any exclusion range, because under Python 2
cross-type comparison a string is greater than any integer, so the test
locus less-or-equal end is always false; the exclusion loop leaves the
state untouched and the record is never marked excluded. -/
theorem composite_locus_never_excluded (s strain : String)
    (excl : List Exclusion) (st : ConsState) :
    (∀ e : Exclusion, exclMatchesB e (.comp s) = false) ∧
    exclusionPhase strain excl (.comp s) st = (false, st) := by
  have hm : ∀ e : Exclusion, exclMatchesB e (.comp s) = false := fun e => rfl
  exact ⟨hm, exclusionFold_no_match strain (.comp s) (fun e _ => hm e) (false, st)⟩

/-- Claim C9: an input file whose strain contributes zero qualifying SNP
rows adds exactly one placeholder SNP row for that strain, with locus
sentinel -1 and base sentinel -. -/
theorem zero_snp_strain_placeholder_row (strain shortFile fmt : String)
    (excl : List Exclusion) (st st1 : ConsState) (records : List SNPRecord)
    (h : processFile strain shortFile fmt excl st records = .ok st1)
    (hz : statsSnps strain st1 = 0) :
    st1.snpRows = st.snpRows ++ [⟨strain, "-1", "-"⟩] :=
  processFile_zero_snps h hz

theorem zero_snp_strain_placeholder_row_witness :
    processFile "s" "f" "vcf" [] initialState [] = .ok c9st ∧
    statsSnps "s" c9st = 0 ∧
    c9st.snpRows = initialState.snpRows ++ [⟨"s", "-1", "-"⟩] :=
  ⟨by rfl, by rfl,
    zero_snp_strain_placeholder_row "s" "f" "vcf" [] initialState c9st []
      (by rfl) (by rfl)⟩

/-- Claim C10: after a whole run from the empty initial state, the
serialized reference output lists the entries of the reference table
sorted by ascending locus; its locus column is strictly ascending and
contains no duplicate locus values. -/
theorem ref_output_strictly_sorted (excl : List Exclusion) (files : List FileJob)
    (st1 : ConsState) (h : processFiles excl files initialState = .ok st1) :
    ((refSerialize st1).map Prod.fst).Pairwise LocusLt ∧
    ((refSerialize st1).map Prod.fst).Nodup ∧
    List.Perm ((refSerialize st1).map Prod.fst) (st1.refTable.map Prod.fst) := by
  have hkeys : (st1.refTable.map Prod.fst).Nodup :=
    (processFiles_ok_core files initialState st1 h).2 (by simp [initialState])
  have hmap : (refSerialize st1).map Prod.fst = refKeysSorted st1 := by
    unfold refSerialize
    rw [List.map_map]
    rw [show (Prod.fst ∘ fun k => (k, ((dGet? k st1.refTable).getD ([], "", 0)).1)) = id
      from rfl]
    exact List.map_id _
  have hperm : List.Perm (refKeysSorted st1) (st1.refTable.map Prod.fst) :=
    List.perm_insertionSort LocusLe _
  have hnodup : (refKeysSorted st1).Nodup := hperm.symm.nodup hkeys
  have hsorted : (refKeysSorted st1).Pairwise LocusLe :=
    List.sorted_insertionSort LocusLe _
  rw [hmap]
  exact ⟨pairwise_lt_of_sorted_nodup hsorted hnodup, hnodup, hperm⟩

theorem ref_output_strictly_sorted_witness :
    processFiles [] c10files initialState = .ok c10st ∧
    (((refSerialize c10st).map Prod.fst).Pairwise LocusLt ∧
      ((refSerialize c10st).map Prod.fst).Nodup ∧
      List.Perm ((refSerialize c10st).map Prod.fst) (c10st.refTable.map Prod.fst)) :=
  ⟨by rfl, ref_output_strictly_sorted [] c10files c10st (by rfl)⟩

end Prephix
